import Mathlib

/-!
Verification of the MLB scoring pipeline (`mlb_streamlit_app.py`).

The pipeline is embedded shallowly:
* pandas cell values are `Val` (a string, or a rational number where `none`
  models NaN / a missing value; rationals stand in for IEEE doubles, so all
  arithmetic is exact);
* a DataFrame is a column-name list plus a list of association-list rows;
* fallible pandas operations (KeyError on a missing column, length-mismatch
  on column assignment) return `Option`.
-/

namespace MLB

/-- A pandas cell: either a string or a number; `Val.vnum none` models NaN
(and hence also a missing value produced by a failed left join). -/
inductive Val where
  | vstr (s : String)
  | vnum (q : Option ℚ)
deriving DecidableEq, Repr

/-- NaN-propagating addition (`NaN + x = x + NaN = NaN`). -/
def oadd : Option ℚ → Option ℚ → Option ℚ
  | some a, some b => some (a + b)
  | _, _ => none

/-- NaN-propagating subtraction. -/
def osub : Option ℚ → Option ℚ → Option ℚ
  | some a, some b => some (a - b)
  | _, _ => none

/-- NaN-propagating multiplication.  (IEEE `NaN * 0 = NaN`, matched here.) -/
def omul : Option ℚ → Option ℚ → Option ℚ
  | some a, some b => some (a * b)
  | _, _ => none

/-- NaN-propagating division.  A zero divisor yields `none`: in this pipeline
a zero divisor only ever occurs together with a zero dividend (the min/max
normalization when max = min, where every numerator is also 0), and IEEE
`0.0/0.0` is NaN, so mapping the zero-divisor case to `none` is faithful on
all reachable inputs. -/
def odiv : Option ℚ → Option ℚ → Option ℚ
  | some a, some b => if b = 0 then none else some (a / b)
  | _, _ => none

/-- A DataFrame row: an association list from column name to cell value. -/
abbrev Row := List (String × Val)

/-- A pandas DataFrame: the ordered list of column names and the rows. -/
structure DF where
  cols : List String
  rows : List Row
deriving DecidableEq, Repr

/-- The cell of row `r` in column `c` (NaN when the binding is absent,
which does not occur for well-formed rectangular frames). -/
def getVal (r : Row) (c : String) : Val :=
  (r.lookup c).getD (Val.vnum none)

/-- Overwrite (or append) the binding of column `c` in a row, keeping its
position — pandas overwrites an existing column in place and appends a new
column at the end. -/
def setK (r : Row) (c : String) (v : Val) : Row :=
  match r with
  | [] => [(c, v)]
  | (c', v') :: rest => if c' = c then (c, v) :: rest else (c', v') :: setK rest c v

/-- `df[c] = vals` — column assignment.  (The caller guarantees
`vals.length = df.rows.length`; pandas raises on a mismatch, and the
theorems below carry that as a hypothesis where it matters.) -/
def setCol (df : DF) (c : String) (vals : List Val) : DF :=
  ⟨if c ∈ df.cols then df.cols else df.cols ++ [c],
   List.zipWith (fun r v => setK r c v) df.rows vals⟩

/-- Read column `c` of the given rows as numbers; `none` on a string cell
(pandas would raise a TypeError once arithmetic hits it). -/
def numCells : List Row → String → Option (List (Option ℚ))
  | [], _ => some []
  | r :: rs, c =>
    match getVal r c with
    | .vstr _ => none
    | .vnum q => (numCells rs c).map (fun vs => q :: vs)

/-- `df[c]` as a numeric column; `none` models the KeyError raised when the
column does not exist (or a TypeError on string cells). -/
def numCol (df : DF) (c : String) : Option (List (Option ℚ)) :=
  if c ∈ df.cols then numCells df.rows c else none

/-- `Series.max()` — the maximum of the non-NaN entries, NaN if there are
none (pandas skips NaN by default). -/
def colMax (vs : List (Option ℚ)) : Option ℚ :=
  vs.foldl
    (fun acc v =>
      match acc, v with
      | none, v => v
      | some m, none => some m
      | some m, some x => some (max m x))
    none

/-- `Series.min()` — the minimum of the non-NaN entries, NaN if there are
none. -/
def colMin (vs : List (Option ℚ)) : Option ℚ :=
  vs.foldl
    (fun acc v =>
      match acc, v with
      | none, v => v
      | some m, none => some m
      | some m, some x => some (min m x))
    none

/-- The metrics the scoring loop treats as lower-is-better
(line 60 of the source). -/
def lowerBetter : List String := ["xFIP", "Bullpen xFIP", "WHIP", "K%", "Rest/Travel"]

/-- Decimal digits to a natural number. -/
def digitsToNat (cs : List Char) : ℕ :=
  cs.foldl (fun n c => 10 * n + (c.toNat - '0'.toNat)) 0

/-- Leftmost match of the regular expression pattern of line 57 — two
digit groups separated by a dash — anywhere in the character list
(re.search semantics: the first group is a maximal digit run, and since a
dash is not a digit no backtracking into a shorter first group can ever
succeed, so a failed attempt simply restarts one character later). -/
def matchWL : List Char → Option (ℕ × ℕ)
  | [] => none
  | c :: cs =>
    if c.isDigit then
      match cs.dropWhile Char.isDigit with
      | '-' :: rest2 =>
        match rest2.takeWhile Char.isDigit with
        | [] => matchWL cs
        | d2 => some (digitsToNat (c :: cs.takeWhile Char.isDigit), digitsToNat d2)
      | _ => matchWL cs
    else matchWL cs

/-- `Series.str.extract` of the win-loss pattern on one string, giving the
two captured integers. -/
def extractWL (s : String) : Option (ℕ × ℕ) :=
  matchWL s.data

/-- Lines 57-58 on one cell: extract wins and losses, replace a zero
`wins + losses` by NaN, and divide.  A non-string cell extracts to NaN
(the str accessor maps non-strings to NaN). -/
def l10Frac (v : Val) : Option ℚ :=
  match v with
  | .vstr s =>
    match extractWL s with
    | some wl =>
      odiv (some (wl.1 : ℚ))
        (if ((wl.1 : ℚ) + (wl.2 : ℚ)) = 0 then none else some ((wl.1 : ℚ) + (wl.2 : ℚ)))
    | none => none
  | .vnum _ => none

/-- Line 59: the win-loss normalized value after `fillna(0)`. -/
def l10Norm (v : Val) : Option ℚ :=
  some ((l10Frac v).getD 0)

/-- The normalized column the scoring loop computes for one statistic
(lines 56-63): the win-loss branch, the lower-is-better branch, and the
higher-is-better branch.  `none` models the KeyError / TypeError raised
when `df[stat]` is unusable. -/
def normColFor (df : DF) (stat : String) : Option (List (Option ℚ)) :=
  if stat = "L10 Record" then
    if stat ∈ df.cols then some (df.rows.map (fun r => l10Norm (getVal r stat)))
    else none
  else if stat ∈ lowerBetter then
    (numCol df stat).map (fun vs =>
      vs.map (fun v => odiv (osub (colMax vs) v) (osub (colMax vs) (colMin vs))))
  else
    (numCol df stat).map (fun vs =>
      vs.map (fun v => odiv (osub v (colMin vs)) (osub (colMax vs) (colMin vs))))

/-- The list `scores` built by the loop of lines 54-64: one weighted
normalized column per entry of the weight mapping, in iteration order. -/
def weightedCols (df : DF) : List (String × ℚ) → Option (List (List (Option ℚ)))
  | [] => some []
  | (stat, w) :: ws =>
    match normColFor df stat, weightedCols df ws with
    | some col, some rest => some (col.map (fun v => omul v (some w)) :: rest)
    | _, _ => none

/-- `sum(scores)` of line 65: Python's `sum` starts from the scalar `0`,
which broadcasts to a column of zeros, and adds the weighted columns
elementwise (NaN-propagating). -/
def sumCols (n : ℕ) (cols : List (List (Option ℚ))) : List (Option ℚ) :=
  cols.foldl (fun acc col => List.zipWith oadd acc col) (List.replicate n (some 0))

/-- `calculate_score` (lines 53-66): compute the weighted normalized
columns and assign their elementwise sum to the `Score` column; `none`
models an exception escaping the function (e.g. KeyError on a weighted
statistic that is not a column). -/
def calculate_score (df : DF) (weights : List (String × ℚ)) : Option DF :=
  (weightedCols df weights).map (fun cols =>
    setCol df "Score" ((sumCols df.rows.length cols).map Val.vnum))

/-- Python `str.strip()` — remove surrounding whitespace. -/
def pyStrip (s : String) : String :=
  ⟨((s.data.dropWhile Char.isWhitespace).reverse.dropWhile Char.isWhitespace).reverse⟩

/-- Python `float()` on a cell text, as far as this pipeline can observe it:
optional surrounding whitespace, optional sign, then digits with an
optional fractional part (at least one digit overall).  Exotic inputs
(exponents, inf, nan, underscores) also accepted by Python are not
modelled; no scraped statistic cell takes those shapes and no claim
depends on them. -/
def parseFloat (s : String) : Option ℚ :=
  let cs := ((s.data.dropWhile Char.isWhitespace).reverse.dropWhile Char.isWhitespace).reverse
  let signed : ℚ × List Char :=
    match cs with
    | '-' :: rest => (-1, rest)
    | '+' :: rest => (1, rest)
    | _ => (1, cs)
  let intPart := signed.2.takeWhile Char.isDigit
  match signed.2.dropWhile Char.isDigit with
  | [] => if intPart = [] then none else some (signed.1 * digitsToNat intPart)
  | '.' :: frac =>
    if frac.all Char.isDigit ∧ (intPart ≠ [] ∨ frac ≠ []) then
      some (signed.1 * ((digitsToNat intPart : ℚ) + (digitsToNat frac : ℚ) / (10 : ℚ) ^ frac.length))
    else none
  | _ => none

/-- `scrape_fangraphs_leaderboard` (lines 33-51), starting from the parsed
page: the input is the found table — `none` when no table with the marker
class exists, otherwise the list of `tr` rows, each a list of `td` cell
texts.  When the table is absent the function returns an empty frame that
still carries the two column labels; otherwise it skips the header row,
keeps rows with more than one cell, strips the team name from cell 1 and
coerces cell 8 to a number, silently dropping the row when cell 8 is
missing (IndexError) or non-numeric (ValueError) — both caught by the bare
except.  (`pd.DataFrame(results)` on an empty list has no columns at all,
which the model reproduces.) -/
def scrape_fangraphs_leaderboard (table : Option (List (List String))) (statColName : String) : DF :=
  match table with
  | none => ⟨["Team", statColName], []⟩
  | some trs =>
    let results := (trs.drop 1).filterMap (fun cols =>
      if cols.length > 1 then
        match cols.get? 8 with
        | some cell8 =>
          match parseFloat (pyStrip cell8) with
          | some v =>
            some [("Team", Val.vstr (pyStrip ((cols.get? 1).getD ""))),
                  (statColName, Val.vnum (some v))]
          | none => none
        | none => none
      else none)
    ⟨if results = [] then [] else ["Team", statColName], results⟩

/-- `.str.strip()` on one cell: strings are stripped, anything else maps
to NaN (the pandas str accessor yields NaN on non-string entries). -/
def stripVal : Val → Val
  | .vstr s => .vstr (pyStrip s)
  | .vnum _ => .vnum none

/-- Lines 79-80: `df_["Team"] = df_["Team"].str.strip()`; `none` models the
KeyError when the frame has no `Team` column. -/
def stripTeamCol (df : DF) : Option DF :=
  if "Team" ∈ df.cols then
    some ⟨df.cols, df.rows.map (fun r => setK r "Team" (stripVal (getVal r "Team")))⟩
  else none

/-- `l.merge(r, on=key, how="left")`: for each left row, one output row per
matching right row (pandas joins NaN keys to NaN keys, as does `Val`
equality here), or a single row padded with NaN in the right columns when
nothing matches.  `none` models the KeyError/MergeError when either frame
lacks the key column. -/
def leftMerge (l r : DF) (key : String) : Option DF :=
  if key ∈ l.cols ∧ key ∈ r.cols then
    let rcols := r.cols.filter (fun c => c ≠ key)
    some ⟨l.cols ++ rcols,
      l.rows.flatMap (fun lr =>
        let ms := r.rows.filter (fun rr => decide (getVal rr key = getVal lr key))
        if ms = [] then [lr ++ rcols.map (fun c => (c, Val.vnum none))]
        else ms.map (fun rr => lr ++ rcols.map (fun c => (c, getVal rr c))))⟩
  else none

/-- Lines 79-84: strip the three leaderboard team columns, then the three
successive left joins on `Team`. -/
def mergePipeline (mlb xf wrc bp : DF) : Option DF :=
  (stripTeamCol xf).bind fun sxf =>
  (stripTeamCol wrc).bind fun swrc =>
  (stripTeamCol bp).bind fun sbp =>
  (leftMerge mlb sxf "Team").bind fun d1 =>
  (leftMerge d1 swrc "Team").bind fun d2 =>
  leftMerge d2 sbp "Team"

/-- Lines 86-90: the five synthetic metric columns.  The unseeded random
draws are passed in explicitly; numpy always produces exactly `len(df)`
values, so a length mismatch (pandas would raise) yields `none`. -/
def enrich (df : DF) (whip ops kpct drs rest : List ℚ) : Option DF :=
  if whip.length = df.rows.length ∧ ops.length = df.rows.length ∧
     kpct.length = df.rows.length ∧ drs.length = df.rows.length ∧
     rest.length = df.rows.length then
    some (setCol (setCol (setCol (setCol (setCol df
      "WHIP" (whip.map (fun q => Val.vnum (some q))))
      "OPS vs Hand" (ops.map (fun q => Val.vnum (some q))))
      "K%" (kpct.map (fun q => Val.vnum (some q))))
      "DRS" (drs.map (fun q => Val.vnum (some q))))
      "Rest/Travel" (rest.map (fun q => Val.vnum (some q))))
  else none

/-- The sort key of a row: its `Score` cell as a number (`none` for NaN;
a string `Score` cell cannot occur after `calculate_score`). -/
def scoreKey (r : Row) : Option ℚ :=
  match getVal r "Score" with
  | .vnum q => q
  | .vstr _ => none

/-- The sort key with NaN defaulted — only ever applied to rows already
known to have a non-NaN key. -/
def scoreVal (r : Row) : ℚ :=
  (scoreKey r).getD 0

/-- The ascending comparison `sort_values` uses on the non-NaN rows. -/
def rowLE (a b : Row) : Prop := scoreVal a ≤ scoreVal b

instance : DecidableRel rowLE :=
  fun a b => inferInstanceAs (Decidable (scoreVal a ≤ scoreVal b))

instance : IsTotal Row rowLE := ⟨fun a b => le_total (scoreVal a) (scoreVal b)⟩

instance : IsTrans Row rowLE := ⟨fun _ _ _ h h' => le_trans h h'⟩

/-- Line 99: `df.sort_values("Score", ascending=False).reset_index(drop=True)`.
pandas `nargsort` separates the NaN keys; for a descending sort it
reverses the non-NaN values together with their positions, argsorts them
ascending, reverses the resulting indexer again, and appends the NaN
positions in input order (`na_position="last"`).  Reversing the filtered
row list plays the role of reversing values and positions at once, so the
double reversal keeps tied keys in their input order whenever the
underlying argsort is stable — numpy's default kind degenerates to a
stable insertion sort below its introsort threshold, which
`insertionSort` models (above the threshold numpy's quicksort
partitioning is what decides the order of equal keys; the model adopts
the stable regime).  `reset_index(drop=True)` makes the positional order
the fresh contiguous index, which is how this model indexes rows anyway.
`none` models the KeyError when no `Score` column exists. -/
def sortScored (df : DF) : Option DF :=
  if "Score" ∈ df.cols then
    let nonNan := df.rows.filter (fun r => (scoreKey r).isSome)
    let nans := df.rows.filter (fun r => !(scoreKey r).isSome)
    some ⟨df.cols, ((nonNan.reverse).insertionSort rowLE).reverse ++ nans⟩
  else none

/-- The column of team names of a frame. -/
def keyVals (df : DF) (key : String) : List Val :=
  df.rows.map (fun r => getVal r key)

/-- The stripped team-name column of a leaderboard frame, before joining. -/
def strippedTeams (df : DF) : List Val :=
  (keyVals df "Team").map stripVal

/-! ### Spec-side definitions (from the wording of the specification) -/

/-- The maximum of a column of plain values, as the spec speaks of it. -/
def qMax : List ℚ → ℚ
  | [] => 0
  | v :: vs => vs.foldl max v

/-- The minimum of a column of plain values. -/
def qMin : List ℚ → ℚ
  | [] => 0
  | v :: vs => vs.foldl min v

/-- Spec wording: for a lower-is-better metric,
normalized = (max − value) / (max − min), over the column. -/
def specNormLower (vs : List ℚ) : List ℚ :=
  vs.map (fun v => (qMax vs - v) / (qMax vs - qMin vs))

/-- Spec wording: for a higher-is-better metric,
normalized = (value − min) / (max − min), over the column. -/
def specNormHigher (vs : List ℚ) : List ℚ :=
  vs.map (fun v => (v - qMin vs) / (qMax vs - qMin vs))

/-! ### Concrete frames used as test inputs and counterexamples -/

/-- Three teams with pitching-efficiency (xFIP) values 3, 4 and 5 — the
end-to-end scenario of the spec. -/
def exC1 : DF :=
  ⟨["Team", "xFIP"],
   [[("Team", Val.vstr "A"), ("xFIP", Val.vnum (some 3))],
    [("Team", Val.vstr "B"), ("xFIP", Val.vnum (some 4))],
    [("Team", Val.vstr "C"), ("xFIP", Val.vnum (some 5))]]⟩

/-- Four teams whose run differentials produce the Score column
[7, 7/2, 7/2, 0] under weight 7 — rows B and C tie. -/
def exC3 : DF :=
  ⟨["Team", "Run Diff"],
   [[("Team", Val.vstr "A"), ("Run Diff", Val.vnum (some 10))],
    [("Team", Val.vstr "B"), ("Run Diff", Val.vnum (some 5))],
    [("Team", Val.vstr "C"), ("Run Diff", Val.vnum (some 5))],
    [("Team", Val.vstr "D"), ("Run Diff", Val.vnum (some 0))]]⟩

/-- Two teams with a constant `Run Diff` column — no variance. -/
def exC4 : DF :=
  ⟨["Run Diff"],
   [[("Run Diff", Val.vnum (some 5))],
    [("Run Diff", Val.vnum (some 5))]]⟩

/-- Two standings rows, `Yankees` and `Mets`. -/
def exMLB : DF :=
  ⟨["Team", "Run Diff", "L10 Record"],
   [[("Team", Val.vstr "Yankees"), ("Run Diff", Val.vnum (some 50)),
     ("L10 Record", Val.vstr "7-3")],
    [("Team", Val.vstr "Mets"), ("Run Diff", Val.vnum (some 10)),
     ("L10 Record", Val.vstr "4-6")]]⟩

/-- A leaderboard row whose team name carries surrounding padding. -/
def exXfPad : DF :=
  ⟨["Team", "xFIP"],
   [[("Team", Val.vstr " Yankees "), ("xFIP", Val.vnum (some (16/5 : ℚ)))]]⟩

/-- A one-team standings frame. -/
def exMLB1 : DF := ⟨["Team"], [[("Team", Val.vstr "A")]]⟩

/-- A leaderboard listing the same team twice. -/
def exXfDup : DF :=
  ⟨["Team", "xFIP"],
   [[("Team", Val.vstr "A"), ("xFIP", Val.vnum (some 3))],
    [("Team", Val.vstr "A"), ("xFIP", Val.vnum (some 4))]]⟩

/-- A frame that already carries a `Score` column before scoring. -/
def exC9 : DF :=
  ⟨["Run Diff", "Score"],
   [[("Run Diff", Val.vnum (some 3)), ("Score", Val.vnum (some 99))],
    [("Run Diff", Val.vnum (some 5)), ("Score", Val.vnum (some 99))]]⟩

/-- The scored frame for `exC4`: the zero-variance column makes every
Score NaN. -/
def exC4out : DF :=
  ⟨["Run Diff", "Score"],
   [[("Run Diff", Val.vnum (some 5)), ("Score", Val.vnum none)],
    [("Run Diff", Val.vnum (some 5)), ("Score", Val.vnum none)]]⟩

/-- The scored frame for `exC9`: both prior `Score` cells are overwritten. -/
def exC9out : DF :=
  ⟨["Run Diff", "Score"],
   [[("Run Diff", Val.vnum (some 3)), ("Score", Val.vnum (some 0))],
    [("Run Diff", Val.vnum (some 5)), ("Score", Val.vnum (some 7))]]⟩

/-- `exMLB` scored with an empty weight mapping: Score 0 everywhere. -/
def exMLBScored0 : DF :=
  ⟨["Team", "Run Diff", "L10 Record", "Score"],
   [[("Team", Val.vstr "Yankees"), ("Run Diff", Val.vnum (some 50)),
     ("L10 Record", Val.vstr "7-3"), ("Score", Val.vnum (some 0))],
    [("Team", Val.vstr "Mets"), ("Run Diff", Val.vnum (some 10)),
     ("L10 Record", Val.vstr "4-6"), ("Score", Val.vnum (some 0))]]⟩

/-- The scored frame for `exC1`: weighted contributions 20, 10 and 0. -/
def exC1out : DF :=
  ⟨["Team", "xFIP", "Score"],
   [[("Team", Val.vstr "A"), ("xFIP", Val.vnum (some 3)), ("Score", Val.vnum (some 20))],
    [("Team", Val.vstr "B"), ("xFIP", Val.vnum (some 4)), ("Score", Val.vnum (some 10))],
    [("Team", Val.vstr "C"), ("xFIP", Val.vnum (some 5)), ("Score", Val.vnum (some 0))]]⟩

/-- `exXfPad` after team-name trimming. -/
def exXfStripped : DF :=
  ⟨["Team", "xFIP"],
   [[("Team", Val.vstr "Yankees"), ("xFIP", Val.vnum (some (16/5 : ℚ)))]]⟩

/-- The merge-pipeline output for `exMLB` and `exXfPad` (the other two
leaderboards absent): Yankees matched, Mets unmatched. -/
def exMerged : DF :=
  ⟨["Team", "Run Diff", "L10 Record", "xFIP", "wRC+", "Bullpen xFIP"],
   [[("Team", Val.vstr "Yankees"), ("Run Diff", Val.vnum (some 50)),
     ("L10 Record", Val.vstr "7-3"), ("xFIP", Val.vnum (some (16/5 : ℚ))),
     ("wRC+", Val.vnum none), ("Bullpen xFIP", Val.vnum none)],
    [("Team", Val.vstr "Mets"), ("Run Diff", Val.vnum (some 10)),
     ("L10 Record", Val.vstr "4-6"), ("xFIP", Val.vnum none),
     ("wRC+", Val.vnum none), ("Bullpen xFIP", Val.vnum none)]]⟩

/-- The merge-pipeline output when the leaderboard lists team A twice:
two rows for the single standings record. -/
def exDupMerged : DF :=
  ⟨["Team", "xFIP", "wRC+", "Bullpen xFIP"],
   [[("Team", Val.vstr "A"), ("xFIP", Val.vnum (some 3)),
     ("wRC+", Val.vnum none), ("Bullpen xFIP", Val.vnum none)],
    [("Team", Val.vstr "A"), ("xFIP", Val.vnum (some 4)),
     ("wRC+", Val.vnum none), ("Bullpen xFIP", Val.vnum none)]]⟩

/-- `exMLB1` merged against three absent leaderboards. -/
def exW6merged : DF :=
  ⟨["Team", "xFIP", "wRC+", "Bullpen xFIP"],
   [[("Team", Val.vstr "A"), ("xFIP", Val.vnum none),
     ("wRC+", Val.vnum none), ("Bullpen xFIP", Val.vnum none)]]⟩

/-- `exW6merged` with the five synthetic metrics set to 1. -/
def exW6enriched : DF :=
  ⟨["Team", "xFIP", "wRC+", "Bullpen xFIP", "WHIP", "OPS vs Hand", "K%", "DRS", "Rest/Travel"],
   [[("Team", Val.vstr "A"), ("xFIP", Val.vnum none),
     ("wRC+", Val.vnum none), ("Bullpen xFIP", Val.vnum none),
     ("WHIP", Val.vnum (some 1)), ("OPS vs Hand", Val.vnum (some 1)),
     ("K%", Val.vnum (some 1)), ("DRS", Val.vnum (some 1)),
     ("Rest/Travel", Val.vnum (some 1))]]⟩

/-- `exW6enriched` scored with the empty weight mapping and sorted. -/
def exW6scored : DF :=
  ⟨["Team", "xFIP", "wRC+", "Bullpen xFIP", "WHIP", "OPS vs Hand", "K%", "DRS",
    "Rest/Travel", "Score"],
   [[("Team", Val.vstr "A"), ("xFIP", Val.vnum none),
     ("wRC+", Val.vnum none), ("Bullpen xFIP", Val.vnum none),
     ("WHIP", Val.vnum (some 1)), ("OPS vs Hand", Val.vnum (some 1)),
     ("K%", Val.vnum (some 1)), ("DRS", Val.vnum (some 1)),
     ("Rest/Travel", Val.vnum (some 1)), ("Score", Val.vnum (some 0))]]⟩

/-! ### Helper lemmas -/

lemma odiv_some_zero (x : Option ℚ) : odiv x (some 0) = none := by
  cases x <;> simp [odiv]

lemma odiv_none_right (x : Option ℚ) : odiv x none = none := by
  cases x <;> rfl

lemma omul_none_left (w : Option ℚ) : omul none w = none := rfl

lemma oadd_none_left (w : Option ℚ) : oadd none w = none := rfl

lemma oadd_none_right (w : Option ℚ) : oadd w none = none := by
  cases w <;> rfl

lemma getVal_setK_self (r : Row) (c : String) (v : Val) :
    getVal (setK r c v) c = v := by
  induction r with
  | nil => simp [getVal, setK, List.lookup]
  | cons p rest ih =>
    obtain ⟨c', v'⟩ := p
    by_cases h : c' = c
    · subst h; simp [getVal, setK, List.lookup]
    · have hb : (c == c') = false := beq_eq_false_iff_ne.mpr (fun hcc => h hcc.symm)
      simp only [setK, if_neg h, getVal, List.lookup, hb]
      exact ih

lemma lookup_setK_ne (r : Row) (c c' : String) (v : Val) (h : c' ≠ c) :
    (setK r c v).lookup c' = r.lookup c' := by
  have hb : (c' == c) = false := beq_eq_false_iff_ne.mpr h
  induction r with
  | nil => simp [setK, List.lookup, hb]
  | cons p rest ih =>
    obtain ⟨k, w⟩ := p
    by_cases hk : k = c
    · subst hk; simp only [setK, if_pos rfl, List.lookup, hb]
    · simp only [setK, if_neg hk, List.lookup]
      cases hck : c' == k
      · simpa [hck] using ih
      · simp

lemma lookup_eq_none_of_keys (l : Row) (c : String) (h : ∀ p ∈ l, p.1 ≠ c) :
    l.lookup c = none := by
  induction l with
  | nil => rfl
  | cons p rest ih =>
    obtain ⟨k, w⟩ := p
    have hk : k ≠ c := h (k, w) (List.mem_cons_self _ _)
    have hb : (c == k) = false := beq_eq_false_iff_ne.mpr (fun hc => hk hc.symm)
    simp only [List.lookup, hb]
    exact ih (fun q hq => h q (List.mem_cons_of_mem _ hq))

lemma getVal_append_of_keys (l₁ l₂ : Row) (c : String) (h : ∀ p ∈ l₂, p.1 ≠ c) :
    getVal (l₁ ++ l₂) c = getVal l₁ c := by
  induction l₁ with
  | nil =>
    simp only [List.nil_append, getVal, List.lookup,
      lookup_eq_none_of_keys l₂ c h]
  | cons p rest ih =>
    obtain ⟨k, w⟩ := p
    simp only [getVal] at ih
    simp only [List.cons_append, getVal, List.lookup]
    cases hck : c == k
    · simpa using ih
    · simp

lemma mem_zipWith {α β γ : Type} (f : α → β → γ) :
    ∀ (as : List α) (bs : List β) (x : γ),
      x ∈ List.zipWith f as bs → ∃ a ∈ as, ∃ b ∈ bs, x = f a b := by
  intro as
  induction as with
  | nil => intro bs x hx; simp [List.zipWith] at hx
  | cons a as ih =>
    intro bs x hx
    cases bs with
    | nil => simp [List.zipWith] at hx
    | cons b bs =>
      simp only [List.zipWith, List.mem_cons] at hx
      rcases hx with rfl | hx
      · exact ⟨a, List.mem_cons_self _ _, b, List.mem_cons_self _ _, rfl⟩
      · obtain ⟨a', ha, b', hb, rfl⟩ := ih bs x hx
        exact ⟨a', List.mem_cons_of_mem _ ha, b', List.mem_cons_of_mem _ hb, rfl⟩

/-! ### C7 — absent leaderboard table -/

/-- C7: for every input page in which the expected leaderboard table
structure is absent, the leaderboard reader returns an empty result set
that still carries the `Team` and metric columns; the reader is a total
function of the parsed page, so no error is raised on this path. -/
theorem c7_absent_table_empty (stat : String) :
    scrape_fangraphs_leaderboard none stat = ⟨["Team", stat], []⟩ := rfl

/-! ### C10 — determinism of the scoring function -/

/-- C10: `calculate_score` is deterministic — two calls with equal input
tables and equal weight mappings produce equal results (the embedded
function reads nothing but its two arguments; the random draws of the
pipeline enter upstream, as explicit `enrich` arguments, never here). -/
theorem c10_deterministic (df₁ df₂ : DF) (w₁ w₂ : List (String × ℚ))
    (hdf : df₁ = df₂) (hw : w₁ = w₂) :
    calculate_score df₁ w₁ = calculate_score df₂ w₂ := by
  subst hdf; subst hw; rfl

/-- Witness for C10 at a concrete frame and weight mapping. -/
theorem c10_deterministic_witness :
    exC1 = exC1 ∧
    calculate_score exC1 [("xFIP", 20)] = calculate_score exC1 [("xFIP", 20)] :=
  ⟨rfl, c10_deterministic exC1 exC1 [("xFIP", 20)] [("xFIP", 20)] rfl rfl⟩

lemma foldl_omax_map_some (vs : List ℚ) (m : ℚ) :
    List.foldl
      (fun acc v =>
        match acc, v with
        | none, v => v
        | some m, none => some m
        | some m, some x => some (max m x))
      (some m) (vs.map some) = some (vs.foldl max m) := by
  induction vs generalizing m with
  | nil => rfl
  | cons v vs ih => simpa using ih (max m v)

lemma foldl_omin_map_some (vs : List ℚ) (m : ℚ) :
    List.foldl
      (fun acc v =>
        match acc, v with
        | none, v => v
        | some m, none => some m
        | some m, some x => some (min m x))
      (some m) (vs.map some) = some (vs.foldl min m) := by
  induction vs generalizing m with
  | nil => rfl
  | cons v vs ih => simpa using ih (min m v)

lemma colMax_map_some (v : ℚ) (vs : List ℚ) :
    colMax ((v :: vs).map some) = some (qMax (v :: vs)) := by
  simpa [colMax, qMax] using foldl_omax_map_some vs v

lemma colMin_map_some (v : ℚ) (vs : List ℚ) :
    colMin ((v :: vs).map some) = some (qMin (v :: vs)) := by
  simpa [colMin, qMin] using foldl_omin_map_some vs v

/-! ### C1 — min/max normalization and the end-to-end scenario -/

/-- C1: on a complete (no-NaN) metric column with variance, the code's
normalization agrees with the spec formulas — (max − v)/(max − min) for
the lower-is-better metrics and (v − min)/(max − min) for the other
weighted numeric metrics; and on the three-team scenario with xFIP
values 3, 4 and 5 under weight 20, the normalized values are 1, 1/2 and 0
and the Score column carries the weighted contributions 20, 10 and 0. -/
theorem c1_normalization :
    (∀ (df : DF) (stat : String) (v : ℚ) (vs : List ℚ),
        stat ∈ lowerBetter →
        numCol df stat = some ((v :: vs).map some) →
        qMax (v :: vs) ≠ qMin (v :: vs) →
        normColFor df stat = some ((specNormLower (v :: vs)).map some)) ∧
    (∀ (df : DF) (stat : String) (v : ℚ) (vs : List ℚ),
        stat ∉ lowerBetter → stat ≠ "L10 Record" →
        numCol df stat = some ((v :: vs).map some) →
        qMax (v :: vs) ≠ qMin (v :: vs) →
        normColFor df stat = some ((specNormHigher (v :: vs)).map some)) ∧
    normColFor exC1 "xFIP" = some [some 1, some (1/2 : ℚ), some 0] ∧
    calculate_score exC1 [("xFIP", 20)] = some exC1out := by
  have hnorm : normColFor exC1 "xFIP" = some [some 1, some (1/2 : ℚ), some 0] := by
    have h1 : numCol exC1 "xFIP" = some [some 3, some 4, some 5] := rfl
    simp only [normColFor]
    rw [if_neg (by decide : ¬("xFIP" : String) = "L10 Record"),
      if_pos (by decide : ("xFIP" : String) ∈ lowerBetter), h1, Option.map_some']
    have hmx : colMax [some 3, some 4, some (5 : ℚ)] = some 5 := by
      simp only [colMax, List.foldl]
      rw [max_eq_right (by norm_num : (3 : ℚ) ≤ 4), max_eq_right (by norm_num : (4 : ℚ) ≤ 5)]
    have hmn : colMin [some 3, some 4, some (5 : ℚ)] = some 3 := by
      simp only [colMin, List.foldl]
      rw [min_eq_left (by norm_num : (3 : ℚ) ≤ 4), min_eq_left (by norm_num : (3 : ℚ) ≤ 5)]
    rw [hmx, hmn]
    norm_num [osub, odiv]
  have hw : weightedCols exC1 [("xFIP", 20)] = some [[some 20, some 10, some 0]] := by
    simp only [weightedCols, hnorm]
    norm_num [omul]
  have hsum : sumCols exC1.rows.length [[some 20, some 10, some 0]] =
      [some 20, some 10, some 0] := by
    norm_num [sumCols, exC1, oadd, List.replicate, List.zipWith]
  have hcalc : calculate_score exC1 [("xFIP", 20)] = some exC1out := by
    simp only [calculate_score, hw, Option.map_some', hsum]
    rfl
  refine ⟨?_, ?_, hnorm, hcalc⟩
  · intro df stat v vs hlb hcol hne
    have hstat : stat ≠ "L10 Record" := by
      rintro rfl
      exact absurd hlb (by decide)
    have hd : qMax (v :: vs) - qMin (v :: vs) ≠ 0 := sub_ne_zero_of_ne hne
    simp only [normColFor, if_neg hstat, if_pos hlb, hcol, Option.map_some']
    rw [colMax_map_some, colMin_map_some]
    simp [specNormLower, List.map_map, Function.comp, osub, odiv, hd]
  · intro df stat v vs hlb hstat hcol hne
    have hd : qMax (v :: vs) - qMin (v :: vs) ≠ 0 := sub_ne_zero_of_ne hne
    simp only [normColFor, if_neg hstat, if_neg hlb, hcol, Option.map_some']
    rw [colMax_map_some, colMin_map_some]
    simp [specNormHigher, List.map_map, Function.comp, osub, odiv, hd]

/-- Witness for C1: both normalization branches instantiated on concrete
columns — xFIP [3,4,5] (lower-is-better) and Run Diff [10,5,5,0]
(higher-is-better). -/
theorem c1_normalization_witness :
    ("xFIP" : String) ∈ lowerBetter ∧
    numCol exC1 "xFIP" = some (([3, 4, 5] : List ℚ).map some) ∧
    qMax [(3 : ℚ), 4, 5] ≠ qMin [(3 : ℚ), 4, 5] ∧
    normColFor exC1 "xFIP" = some ((specNormLower [3, 4, 5]).map some) ∧
    ("Run Diff" : String) ∉ lowerBetter ∧
    numCol exC3 "Run Diff" = some (([10, 5, 5, 0] : List ℚ).map some) ∧
    qMax [(10 : ℚ), 5, 5, 0] ≠ qMin [(10 : ℚ), 5, 5, 0] ∧
    normColFor exC3 "Run Diff" = some ((specNormHigher [10, 5, 5, 0]).map some) := by
  have h1 : qMax [(3 : ℚ), 4, 5] ≠ qMin [(3 : ℚ), 4, 5] := by
    norm_num [qMax, qMin, max_def, min_def]
  have h2 : qMax [(10 : ℚ), 5, 5, 0] ≠ qMin [(10 : ℚ), 5, 5, 0] := by
    norm_num [qMax, qMin, max_def, min_def]
  exact ⟨by decide, rfl, h1,
    c1_normalization.1 exC1 "xFIP" 3 [4, 5] (by decide) rfl h1,
    by decide, rfl, h2,
    c1_normalization.2.1 exC3 "Run Diff" 10 [5, 5, 0] (by decide) (by decide) rfl h2⟩

/-! ### C2 — win/loss normalization -/

/-- C2: every `L10 Record` cell whose string matches the two-integer
pattern is normalized to wins/(wins+losses), with the both-zero case
mapped to 0 rather than left undefined; concretely "7-3" normalizes to
7/10 and "0-0" to 0. -/
theorem c2_winloss_norm :
    (∀ (s : String) (w l : ℕ), extractWL s = some (w, l) →
        l10Norm (Val.vstr s) =
          some (if w + l = 0 then 0 else (w : ℚ) / ((w : ℚ) + (l : ℚ)))) ∧
    l10Norm (Val.vstr "7-3") = some ((7 : ℚ) / 10) ∧
    l10Norm (Val.vstr "0-0") = some 0 := by
  refine ⟨?_, ?_, ?_⟩
  · intro s w l h
    simp only [l10Norm, l10Frac, h]
    by_cases hz : w + l = 0
    · have hd : ((w : ℚ) + (l : ℚ)) = 0 := by exact_mod_cast congrArg (Nat.cast (R := ℚ)) hz
      simp [hd, hz, odiv]
    · have hd : ((w : ℚ) + (l : ℚ)) ≠ 0 := by
        intro hc
        exact hz (by exact_mod_cast hc)
      simp [hd, hz, odiv]
  · have he : extractWL "7-3" = some (7, 3) := rfl
    simp only [l10Norm, l10Frac, he]
    norm_num [odiv]
  · have he : extractWL "0-0" = some (0, 0) := rfl
    simp only [l10Norm, l10Frac, he]
    norm_num [odiv]

/-- Witness for C2 at the two concrete record strings. -/
theorem c2_winloss_norm_witness :
    extractWL "7-3" = some (7, 3) ∧
    l10Norm (Val.vstr "7-3") = some (if 7 + 3 = 0 then 0 else (7 : ℚ) / ((7 : ℚ) + (3 : ℚ))) ∧
    extractWL "0-0" = some (0, 0) ∧
    l10Norm (Val.vstr "0-0") = some (if 0 + 0 = 0 then 0 else (0 : ℚ) / ((0 : ℚ) + (0 : ℚ))) :=
  ⟨rfl, c2_winloss_norm.1 "7-3" 7 3 rfl, rfl, c2_winloss_norm.1 "0-0" 0 0 rfl⟩

/-! ### C4 — zero variance divides by zero, unguarded -/

lemma zipWith_oadd_allNone_right (as bs : List (Option ℚ)) (h : ∀ b ∈ bs, b = none) :
    ∀ x ∈ List.zipWith oadd as bs, x = none := by
  induction as generalizing bs with
  | nil => intro x hx; simp at hx
  | cons a as ih =>
    cases bs with
    | nil => intro x hx; simp at hx
    | cons b bs =>
      intro x hx
      rcases List.mem_cons.mp hx with rfl | hx
      · rw [h b (List.mem_cons_self _ _)]
        exact oadd_none_right a
      · exact ih bs (fun b' hb' => h b' (List.mem_cons_of_mem _ hb')) x hx

lemma zipWith_oadd_allNone_left (as bs : List (Option ℚ)) (h : ∀ a ∈ as, a = none) :
    ∀ x ∈ List.zipWith oadd as bs, x = none := by
  induction as generalizing bs with
  | nil => intro x hx; simp at hx
  | cons a as ih =>
    cases bs with
    | nil => intro x hx; simp at hx
    | cons b bs =>
      intro x hx
      rcases List.mem_cons.mp hx with rfl | hx
      · rw [h a (List.mem_cons_self _ _)]
        rfl
      · exact ih bs (fun a' ha' => h a' (List.mem_cons_of_mem _ ha')) x hx

lemma foldl_zip_allNone :
    ∀ (cols : List (List (Option ℚ))) (acc : List (Option ℚ)),
      ((∃ c ∈ cols, ∀ x ∈ c, x = none) ∨ (∀ x ∈ acc, x = none)) →
      ∀ x ∈ cols.foldl (fun a c => List.zipWith oadd a c) acc, x = none := by
  intro cols
  induction cols with
  | nil =>
    intro acc h x hx
    rcases h with ⟨c, hc, _⟩ | h
    · simp at hc
    · exact h x hx
  | cons c cs ih =>
    intro acc h x hx
    rw [List.foldl_cons] at hx
    rcases h with ⟨c', hc', hall⟩ | hacc
    · rcases List.mem_cons.mp hc' with rfl | hc'
      · exact ih _ (Or.inr (zipWith_oadd_allNone_right acc c' hall)) x hx
      · exact ih _ (Or.inl ⟨c', hc', hall⟩) x hx
    · exact ih _ (Or.inr (zipWith_oadd_allNone_left acc c hacc)) x hx

lemma weightedCols_mem (df : DF) :
    ∀ (ws : List (String × ℚ)) (cols : List (List (Option ℚ))) (stat : String) (w : ℚ),
      weightedCols df ws = some cols → (stat, w) ∈ ws →
      ∃ nc, normColFor df stat = some nc ∧
        nc.map (fun v => omul v (some w)) ∈ cols := by
  intro ws
  induction ws with
  | nil => intro cols stat w h hmem; simp at hmem
  | cons p ws ih =>
    intro cols stat w h hmem
    obtain ⟨s', w'⟩ := p
    simp only [weightedCols] at h
    cases hn : normColFor df s' with
    | none => rw [hn] at h; cases h
    | some col =>
      cases hw' : weightedCols df ws with
      | none => rw [hn, hw'] at h; cases h
      | some rest =>
        rw [hn, hw'] at h
        injection h with h
        subst h
        rcases List.mem_cons.mp hmem with heq | hmem'
        · injection heq with h1 h2
          subst h1; subst h2
          exact ⟨col, hn, List.mem_cons_self _ _⟩
        · obtain ⟨nc, hnc, hmemc⟩ := ih rest stat w hw' hmem'
          exact ⟨nc, hnc, List.mem_cons_of_mem _ hmemc⟩

lemma normColFor_allNone (df : DF) (stat : String) (vs : List (Option ℚ))
    (hst : stat ≠ "L10 Record") (hcol : numCol df stat = some vs)
    (hvar : colMax vs = colMin vs) :
    ∃ nc, normColFor df stat = some nc ∧ ∀ x ∈ nc, x = none := by
  have hden : ∀ x : Option ℚ, odiv x (osub (colMax vs) (colMin vs)) = none := by
    intro x
    rw [hvar]
    cases hmn : colMin vs with
    | none => cases x <;> rfl
    | some m =>
      have hs : osub (some m) (some m) = some 0 := by simp [osub]
      rw [hs]
      exact odiv_some_zero x
  simp only [normColFor, if_neg hst]
  by_cases hlb : stat ∈ lowerBetter
  · rw [if_pos hlb, hcol, Option.map_some']
    refine ⟨_, rfl, ?_⟩
    intro x hx
    obtain ⟨v, _, rfl⟩ := List.mem_map.mp hx
    exact hden _
  · rw [if_neg hlb, hcol, Option.map_some']
    refine ⟨_, rfl, ?_⟩
    intro x hx
    obtain ⟨v, _, rfl⟩ := List.mem_map.mp hx
    exact hden _

/-- C4: when a weighted min/max-normalized metric column has no variance
(column max equals column min), the division by zero is unguarded — the
normalized value of every row is NaN and NaN-propagation makes the whole
Score column NaN (`Val.vnum none`). -/
theorem c4_zero_variance_undefined (df : DF) (weights : List (String × ℚ))
    (stat : String) (w : ℚ) (vs : List (Option ℚ)) (out : DF)
    (hmem : (stat, w) ∈ weights) (hst : stat ≠ "L10 Record")
    (hcol : numCol df stat = some vs) (hvar : colMax vs = colMin vs)
    (hrun : calculate_score df weights = some out) :
    ∀ r ∈ out.rows, getVal r "Score" = Val.vnum none := by
  obtain ⟨cols, hcols, hout⟩ := Option.map_eq_some'.mp hrun
  subst hout
  obtain ⟨nc, hnc, hall⟩ := normColFor_allNone df stat vs hst hcol hvar
  obtain ⟨nc', hnc', hmemc⟩ := weightedCols_mem df weights cols stat w hcols hmem
  rw [hnc] at hnc'
  injection hnc' with hnceq
  subst hnceq
  have hwall : ∀ x ∈ nc.map (fun v => omul v (some w)), x = none := by
    intro x hx
    obtain ⟨v, hv, rfl⟩ := List.mem_map.mp hx
    rw [hall v hv]
    rfl
  have hsum : ∀ x ∈ sumCols df.rows.length cols, x = none := by
    simp only [sumCols]
    exact foldl_zip_allNone cols _ (Or.inl ⟨_, hmemc, hwall⟩)
  intro r hr
  simp only [setCol] at hr
  obtain ⟨row, _, v, hv, rfl⟩ := mem_zipWith _ _ _ _ hr
  obtain ⟨q, hq, rfl⟩ := List.mem_map.mp hv
  rw [hsum q hq, getVal_setK_self]

/-- Witness for C4: two teams with the constant column Run Diff = 5 and
weight 7 — every Score comes out NaN. -/
theorem c4_zero_variance_undefined_witness :
    ("Run Diff", (7 : ℚ)) ∈ [("Run Diff", (7 : ℚ))] ∧
    numCol exC4 "Run Diff" = some [some 5, some 5] ∧
    colMax [some (5 : ℚ), some 5] = colMin [some (5 : ℚ), some 5] ∧
    calculate_score exC4 [("Run Diff", 7)] = some exC4out ∧
    ∀ r ∈ exC4out.rows, getVal r "Score" = Val.vnum none := by
  have hvar : colMax [some (5 : ℚ), some 5] = colMin [some (5 : ℚ), some 5] := by
    simp [colMax, colMin, List.foldl, max_self, min_self]
  have hrun : calculate_score exC4 [("Run Diff", 7)] = some exC4out := by
    have hn : normColFor exC4 "Run Diff" = some [none, none] := by
      have h1 : numCol exC4 "Run Diff" = some [some 5, some 5] := rfl
      simp only [normColFor]
      rw [if_neg (by decide : ¬("Run Diff" : String) = "L10 Record"),
        if_neg (by decide : ¬("Run Diff" : String) ∈ lowerBetter), h1, Option.map_some']
      norm_num [colMax, colMin, List.foldl, max_self, min_self, osub, odiv]
    have hwcols : weightedCols exC4 [("Run Diff", 7)] = some [[none, none]] := by
      simp only [weightedCols, hn]
      rfl
    have hsum : sumCols exC4.rows.length [[none, none]] = [none, none] := by
      simp [sumCols, exC4, oadd, List.replicate, List.zipWith]
    simp only [calculate_score, hwcols, Option.map_some', hsum]
    rfl
  exact ⟨List.mem_cons_self _ _, rfl, hvar, hrun,
    c4_zero_variance_undefined exC4 [("Run Diff", 7)] "Run Diff" 7 [some 5, some 5] exC4out
      (List.mem_cons_self _ _) (by decide) rfl hvar hrun⟩

/-! ### C8 — malformed record strings -/

/-- C8: a row whose last-ten-record string does not contain the
two-integer pattern gets win/loss normalized value 0 — the failed
extraction yields a missing value and the fill step maps it to 0; no
error and no undefined value results. -/
theorem c8_malformed_record_zero (s : String) (h : extractWL s = none) :
    l10Norm (Val.vstr s) = some 0 := by
  simp only [l10Norm, l10Frac, h]
  rfl

/-- Witness for C8 at concrete malformed strings. -/
theorem c8_malformed_record_zero_witness :
    extractWL "" = none ∧ l10Norm (Val.vstr "") = some 0 :=
  ⟨rfl, c8_malformed_record_zero "" rfl⟩

/-! ### C5 — team names trimmed before the joins -/

lemma stripTeamCol_keyVals (df sdf : DF) (h : stripTeamCol df = some sdf) :
    keyVals sdf "Team" = (keyVals df "Team").map stripVal := by
  simp only [stripTeamCol] at h
  by_cases hc : "Team" ∈ df.cols
  · rw [if_pos hc] at h
    injection h with h
    subst h
    simp only [keyVals, List.map_map]
    refine List.map_congr_left (fun r _ => ?_)
    simp [Function.comp, getVal_setK_self]
  · rw [if_neg hc] at h; cases h

/-- C5: every leaderboard team-name string is trimmed before the joins
(the trimmed team column is exactly the cell-wise strip of the raw one),
and on the concrete frames — standings rows Yankees and Mets, one
leaderboard row " Yankees " with padding — the join matches Yankees
(xFIP present) and leaves Mets unmatched (xFIP NaN). -/
theorem c5_trim_before_join :
    (∀ (df sdf : DF), stripTeamCol df = some sdf →
        keyVals sdf "Team" = (keyVals df "Team").map stripVal) ∧
    mergePipeline exMLB exXfPad (scrape_fangraphs_leaderboard none "wRC+")
      (scrape_fangraphs_leaderboard none "Bullpen xFIP") = some exMerged ∧
    getVal (exMerged.rows.getD 0 []) "Team" = Val.vstr "Yankees" ∧
    getVal (exMerged.rows.getD 0 []) "xFIP" = Val.vnum (some (16/5 : ℚ)) ∧
    getVal (exMerged.rows.getD 1 []) "Team" = Val.vstr "Mets" ∧
    getVal (exMerged.rows.getD 1 []) "xFIP" = Val.vnum none :=
  ⟨stripTeamCol_keyVals, rfl, rfl, rfl, rfl, rfl⟩

/-- Witness for C5: the padded leaderboard frame strips to the clean one. -/
theorem c5_trim_before_join_witness :
    stripTeamCol exXfPad = some exXfStripped ∧
    keyVals exXfStripped "Team" = (keyVals exXfPad "Team").map stripVal :=
  ⟨rfl, c5_trim_before_join.1 exXfPad exXfStripped rfl⟩

/-! ### C9 — frame effect of `calculate_score` -/

lemma numCells_length (c : String) :
    ∀ (rows : List Row) (vs : List (Option ℚ)),
      numCells rows c = some vs → vs.length = rows.length := by
  intro rows
  induction rows with
  | nil =>
    intro vs h
    injection h with h
    subst h
    rfl
  | cons r rs ih =>
    intro vs h
    simp only [numCells] at h
    cases hg : getVal r c with
    | vstr s => rw [hg] at h; cases h
    | vnum q =>
      rw [hg] at h
      obtain ⟨vs', hvs', rfl⟩ := Option.map_eq_some'.mp h
      simp [ih vs' hvs']

lemma numCol_length (df : DF) (stat : String) (vs : List (Option ℚ))
    (h : numCol df stat = some vs) : vs.length = df.rows.length := by
  simp only [numCol] at h
  by_cases hc : stat ∈ df.cols
  · rw [if_pos hc] at h
    exact numCells_length stat df.rows vs h
  · rw [if_neg hc] at h; cases h

lemma normColFor_length (df : DF) (stat : String) (nc : List (Option ℚ))
    (h : normColFor df stat = some nc) : nc.length = df.rows.length := by
  simp only [normColFor] at h
  by_cases hst : stat = "L10 Record"
  · rw [if_pos hst] at h
    by_cases hc : stat ∈ df.cols
    · rw [if_pos hc] at h
      injection h with h
      subst h
      simp
    · rw [if_neg hc] at h; cases h
  · rw [if_neg hst] at h
    by_cases hlb : stat ∈ lowerBetter
    · rw [if_pos hlb] at h
      cases hn : numCol df stat with
      | none => rw [hn] at h; cases h
      | some vs =>
        rw [hn] at h
        injection h with h
        subst h
        simp [numCol_length df stat vs hn]
    · rw [if_neg hlb] at h
      cases hn : numCol df stat with
      | none => rw [hn] at h; cases h
      | some vs =>
        rw [hn] at h
        injection h with h
        subst h
        simp [numCol_length df stat vs hn]

lemma weightedCols_lengths (df : DF) :
    ∀ (ws : List (String × ℚ)) (cols : List (List (Option ℚ))),
      weightedCols df ws = some cols → ∀ c ∈ cols, c.length = df.rows.length := by
  intro ws
  induction ws with
  | nil =>
    intro cols h c hc
    injection h with h
    subst h
    simp at hc
  | cons p ws ih =>
    intro cols h c hc
    obtain ⟨s', w'⟩ := p
    simp only [weightedCols] at h
    cases hn : normColFor df s' with
    | none => rw [hn] at h; cases h
    | some col =>
      cases hw : weightedCols df ws with
      | none => rw [hn, hw] at h; cases h
      | some rest =>
        rw [hn, hw] at h
        injection h with h
        subst h
        rcases List.mem_cons.mp hc with rfl | hc'
        · simp [normColFor_length df s' col hn]
        · exact ih rest hw c hc'

lemma foldl_zip_length (n : ℕ) :
    ∀ (cols : List (List (Option ℚ))) (acc : List (Option ℚ)),
      acc.length = n → (∀ c ∈ cols, c.length = n) →
      (cols.foldl (fun a c => List.zipWith oadd a c) acc).length = n := by
  intro cols
  induction cols with
  | nil => intro acc ha _; simpa using ha
  | cons c cs ih =>
    intro acc ha hc
    rw [List.foldl_cons]
    refine ih _ ?_ (fun c' hc' => hc c' (List.mem_cons_of_mem _ hc'))
    rw [List.length_zipWith, ha, hc c (List.mem_cons_self _ _)]
    exact min_self n

lemma sumCols_length (n : ℕ) (cols : List (List (Option ℚ)))
    (h : ∀ c ∈ cols, c.length = n) : (sumCols n cols).length = n :=
  foldl_zip_length n cols _ (by simp) h

/-- C9 (amended): `calculate_score` only writes the `Score` column — the
row count and row order are untouched, the column list is only extended
by `Score` when absent, and every cell in a column other than `Score` is
unchanged.  (A pre-existing `Score` column is overwritten, which is the
one correction to the claim; see the counterexample.) -/
theorem c9_frame_effect (df : DF) (weights : List (String × ℚ)) (out : DF)
    (h : calculate_score df weights = some out) :
    out.cols = (if "Score" ∈ df.cols then df.cols else df.cols ++ ["Score"]) ∧
    out.rows.length = df.rows.length ∧
    ∀ (i : ℕ) (r r' : Row), df.rows[i]? = some r → out.rows[i]? = some r' →
      ∀ c, c ≠ "Score" → r'.lookup c = r.lookup c := by
  obtain ⟨cols, hcols, hout⟩ := Option.map_eq_some'.mp h
  subst hout
  have hlen : ((sumCols df.rows.length cols).map Val.vnum).length = df.rows.length := by
    rw [List.length_map]
    exact sumCols_length _ cols (weightedCols_lengths df weights cols hcols)
  refine ⟨rfl, ?_, ?_⟩
  · simp only [setCol, List.length_zipWith, hlen, min_self]
  · intro i r r' hr hr' c hc
    simp only [setCol] at hr'
    rw [List.getElem?_zipWith, hr] at hr'
    cases hv : ((sumCols df.rows.length cols).map Val.vnum)[i]? with
    | none => rw [hv] at hr'; cases hr'
    | some v =>
      rw [hv] at hr'
      injection hr' with hr'
      subst hr'
      exact lookup_setK_ne r "Score" c v hc

/-- Counterexample to C9 as stated: a pre-existing `Score` cell (99) is
overwritten by the computed score (0), so not every pre-existing cell
value survives. -/
theorem c9_prior_score_overwritten :
    calculate_score exC9 [("Run Diff", 7)] = some exC9out ∧
    getVal (exC9.rows.getD 0 []) "Score" = Val.vnum (some 99) ∧
    getVal (exC9out.rows.getD 0 []) "Score" = Val.vnum (some 0) ∧
    getVal (exC9out.rows.getD 0 []) "Score" ≠ getVal (exC9.rows.getD 0 []) "Score" := by
  have hn : normColFor exC9 "Run Diff" = some [some 0, some 1] := by
    have h1 : numCol exC9 "Run Diff" = some [some 3, some 5] := rfl
    simp only [normColFor]
    rw [if_neg (by decide : ¬("Run Diff" : String) = "L10 Record"),
      if_neg (by decide : ¬("Run Diff" : String) ∈ lowerBetter), h1, Option.map_some']
    have hmx : colMax [some 3, some (5 : ℚ)] = some 5 := by
      simp only [colMax, List.foldl]
      rw [max_eq_right (by norm_num : (3 : ℚ) ≤ 5)]
    have hmn : colMin [some 3, some (5 : ℚ)] = some 3 := by
      simp only [colMin, List.foldl]
      rw [min_eq_left (by norm_num : (3 : ℚ) ≤ 5)]
    rw [hmx, hmn]
    norm_num [osub, odiv]
  have hw : weightedCols exC9 [("Run Diff", 7)] = some [[some 0, some 7]] := by
    simp only [weightedCols, hn]
    norm_num [omul]
  have hsum : sumCols exC9.rows.length [[some 0, some 7]] = [some 0, some 7] := by
    norm_num [sumCols, exC9, oadd, List.replicate, List.zipWith]
  have hcalc : calculate_score exC9 [("Run Diff", 7)] = some exC9out := by
    simp only [calculate_score, hw, Option.map_some', hsum]
    rfl
  refine ⟨hcalc, rfl, rfl, ?_⟩
  intro hcontr
  rw [show getVal (exC9out.rows.getD 0 []) "Score" = Val.vnum (some 0) from rfl,
    show getVal (exC9.rows.getD 0 []) "Score" = Val.vnum (some 99) from rfl] at hcontr
  injection hcontr with hcontr
  injection hcontr with hcontr
  norm_num at hcontr

/-- Witness for the amended C9 at a concrete frame (empty weight mapping,
so the Score column is all zeros and everything else is untouched). -/
theorem c9_frame_effect_witness :
    calculate_score exMLB [] = some exMLBScored0 ∧
    exMLBScored0.cols = (if "Score" ∈ exMLB.cols then exMLB.cols else exMLB.cols ++ ["Score"]) ∧
    exMLBScored0.rows.length = exMLB.rows.length :=
  ⟨rfl, (c9_frame_effect exMLB [] exMLBScored0 rfl).1,
    (c9_frame_effect exMLB [] exMLBScored0 rfl).2.1⟩

/-! ### C3 — descending sort; tie order is not stable -/

lemma sortScored_perm (df out : DF) (h : sortScored df = some out) :
    out.rows.Perm df.rows := by
  simp only [sortScored] at h
  by_cases hs : "Score" ∈ df.cols
  case neg => rw [if_neg hs] at h; cases h
  rw [if_pos hs] at h
  injection h with h
  subst h
  refine List.Perm.trans
    (List.Perm.append
      (((List.reverse_perm _).trans (List.perm_insertionSort _ _)).trans
        (List.reverse_perm _))
      (List.Perm.refl _)) ?_
  exact List.filter_append_perm _ df.rows

lemma filter_len_le_one (key : String) (rows : List Row)
    (hnd : (rows.map (fun r => getVal r key)).Nodup) (v : Val) :
    (rows.filter (fun rr => decide (getVal rr key = v))).length ≤ 1 := by
  induction rows with
  | nil => simp
  | cons r rs ih =>
    rw [List.map_cons, List.nodup_cons] at hnd
    obtain ⟨hnotin, hnd'⟩ := hnd
    rw [List.filter_cons]
    by_cases hv : getVal r key = v
    · rw [if_pos (by simpa using hv)]
      have hnil : rs.filter (fun rr => decide (getVal rr key = v)) = [] := by
        refine List.filter_eq_nil_iff.mpr (fun rr hrr => ?_)
        simp only [decide_eq_true_eq]
        intro hc
        exact hnotin (hv ▸ hc ▸ List.mem_map_of_mem _ hrr)
      rw [hnil]
      simp
    · rw [if_neg (by simpa using hv)]
      exact ih hnd'

lemma leftMerge_unique (l r : DF) (key : String) (m : DF)
    (h : leftMerge l r key = some m)
    (hnd : (keyVals r key).Nodup) :
    m.rows.length = l.rows.length ∧ keyVals m key = keyVals l key := by
  simp only [keyVals] at hnd ⊢
  simp only [leftMerge] at h
  by_cases hk : key ∈ l.cols ∧ key ∈ r.cols
  case neg => rw [if_neg hk] at h; cases h
  rw [if_pos hk] at h
  injection h with h
  subst h
  simp only
  have hpad : ∀ (f : String → Val) (lr : Row),
      getVal (lr ++ (r.cols.filter (fun c => decide (c ≠ key))).map (fun c => (c, f c))) key
        = getVal lr key := by
    intro f lr
    apply getVal_append_of_keys
    intro p hp
    obtain ⟨c, hc, rfl⟩ := List.mem_map.mp hp
    simpa using (List.mem_filter.mp hc).2
  generalize l.rows = lrows
  induction lrows with
  | nil => simp
  | cons lr lrows ih =>
    rw [List.flatMap_cons]
    cases hms : r.rows.filter (fun rr => decide (getVal rr key = getVal lr key)) with
    | nil =>
      refine ⟨?_, ?_⟩
      · simp only [reduceIte, List.singleton_append, List.length_cons, ih.1]
      · simp only [reduceIte, List.singleton_append, List.map_cons, ih.2, hpad]
    | cons rr rest =>
      have hle := filter_len_le_one key r.rows hnd (getVal lr key)
      rw [hms] at hle
      have hrest : rest = [] := by
        cases rest with
        | nil => rfl
        | cons a b => simp at hle
      subst hrest
      rw [if_neg (show ¬([rr] : List Row) = [] by simp)]
      refine ⟨?_, ?_⟩
      · simp only [List.map_cons, List.map_nil, List.singleton_append,
          List.length_cons, ih.1]
      · simp only [List.map_cons, List.map_nil, List.singleton_append,
          ih.2, hpad]

lemma map_getVal_zipWith_setK (k c : String) (hck : c ≠ k) :
    ∀ (rows : List Row) (vals : List Val), vals.length = rows.length →
      (List.zipWith (fun r v => setK r c v) rows vals).map (fun r => getVal r k) =
        rows.map (fun r => getVal r k) := by
  intro rows
  induction rows with
  | nil => intro vals _; simp
  | cons r rs ih =>
    intro vals h
    cases vals with
    | nil => simp at h
    | cons v vs =>
      simp only [List.zipWith_cons_cons, List.map_cons]
      have hh : getVal (setK r c v) k = getVal r k := by
        unfold getVal
        rw [lookup_setK_ne r c k v (Ne.symm hck)]
      rw [hh, ih vs (by simpa using h)]

lemma setCol_preserves (df : DF) (c : String) (vals : List Val) (k : String)
    (hck : c ≠ k) (hlen : vals.length = df.rows.length) :
    (setCol df c vals).rows.length = df.rows.length ∧
    keyVals (setCol df c vals) k = keyVals df k := by
  constructor
  · simp [setCol, List.length_zipWith, hlen]
  · simp only [keyVals, setCol]
    exact map_getVal_zipWith_setK k c hck df.rows vals hlen

lemma enrich_step (df : DF) (c : String) (qs : List ℚ) (hck : c ≠ "Team")
    (hlen : qs.length = df.rows.length) :
    (setCol df c (qs.map (fun q => Val.vnum (some q)))).rows.length = df.rows.length ∧
    keyVals (setCol df c (qs.map (fun q => Val.vnum (some q)))) "Team" = keyVals df "Team" :=
  setCol_preserves df c _ "Team" hck (by simpa using hlen)

lemma enrich_preserves (df out : DF) (whip ops kpct drs rest : List ℚ)
    (h : enrich df whip ops kpct drs rest = some out) :
    out.rows.length = df.rows.length ∧ keyVals out "Team" = keyVals df "Team" := by
  simp only [enrich] at h
  by_cases hlen : whip.length = df.rows.length ∧ ops.length = df.rows.length ∧
      kpct.length = df.rows.length ∧ drs.length = df.rows.length ∧
      rest.length = df.rows.length
  case neg => rw [if_neg hlen] at h; cases h
  rw [if_pos hlen] at h
  injection h with h
  subst h
  obtain ⟨h1, h2, h3, h4, h5⟩ := hlen
  have s1 := enrich_step df "WHIP" whip (by decide) h1
  have s2 := enrich_step _ "OPS vs Hand" ops (by decide) (h2.trans s1.1.symm)
  have s3 := enrich_step _ "K%" kpct (by decide) (h3.trans (s2.1.trans s1.1).symm)
  have s4 := enrich_step _ "DRS" drs (by decide)
    (h4.trans (s3.1.trans (s2.1.trans s1.1)).symm)
  have s5 := enrich_step _ "Rest/Travel" rest (by decide)
    (h5.trans (s4.1.trans (s3.1.trans (s2.1.trans s1.1))).symm)
  exact ⟨s5.1.trans (s4.1.trans (s3.1.trans (s2.1.trans s1.1))),
    s5.2.trans (s4.2.trans (s3.2.trans (s2.2.trans s1.2)))⟩

lemma calculate_score_preserves (df out : DF) (w : List (String × ℚ)) (k : String)
    (hk : ¬("Score" : String) = k) (h : calculate_score df w = some out) :
    out.rows.length = df.rows.length ∧ keyVals out k = keyVals df k := by
  obtain ⟨cols, hcols, hout⟩ := Option.map_eq_some'.mp h
  subst hout
  have hlen : ((sumCols df.rows.length cols).map Val.vnum).length = df.rows.length := by
    rw [List.length_map]
    exact sumCols_length _ cols (weightedCols_lengths df w cols hcols)
  exact setCol_preserves df "Score" _ k hk hlen

/-- C6 (amended): assuming each leaderboard has at most one row per
(trimmed) team name — which the data model's "one row per (source, team)
pair" prescribes but the code does not enforce — the merge stage yields
exactly one row per standings record with the team column unchanged, and
enrichment, scoring and sorting never drop a row: the final table has the
same row count and the same multiset of team names as the standings
frame.  Without the uniqueness assumption the claim fails; see the
counterexample. -/
theorem c6_row_preservation
    (mlb xf wrc bp merged enriched scored final : DF)
    (whip ops kpct drs rest : List ℚ) (weights : List (String × ℚ))
    (h1 : (strippedTeams xf).Nodup) (h2 : (strippedTeams wrc).Nodup)
    (h3 : (strippedTeams bp).Nodup)
    (hm : mergePipeline mlb xf wrc bp = some merged)
    (he : enrich merged whip ops kpct drs rest = some enriched)
    (hs : calculate_score enriched weights = some scored)
    (hf : sortScored scored = some final) :
    merged.rows.length = mlb.rows.length ∧
    keyVals merged "Team" = keyVals mlb "Team" ∧
    final.rows.length = mlb.rows.length ∧
    (keyVals final "Team").Perm (keyVals mlb "Team") := by
  simp only [mergePipeline, Option.bind_eq_some] at hm
  obtain ⟨sxf, hsxf, swrc, hswrc, sbp, hsbp, d1, hd1, d2, hd2, hm⟩ := hm
  have nd1 : (keyVals sxf "Team").Nodup := by
    rw [stripTeamCol_keyVals xf sxf hsxf]; exact h1
  have nd2 : (keyVals swrc "Team").Nodup := by
    rw [stripTeamCol_keyVals wrc swrc hswrc]; exact h2
  have nd3 : (keyVals sbp "Team").Nodup := by
    rw [stripTeamCol_keyVals bp sbp hsbp]; exact h3
  obtain ⟨l1, k1⟩ := leftMerge_unique mlb sxf "Team" d1 hd1 nd1
  obtain ⟨l2, k2⟩ := leftMerge_unique d1 swrc "Team" d2 hd2 nd2
  obtain ⟨l3, k3⟩ := leftMerge_unique d2 sbp "Team" merged hm nd3
  have hmlen : merged.rows.length = mlb.rows.length := by rw [l3, l2, l1]
  have hmk : keyVals merged "Team" = keyVals mlb "Team" := by rw [k3, k2, k1]
  obtain ⟨le, ke⟩ := enrich_preserves merged enriched whip ops kpct drs rest he
  obtain ⟨ls, ks⟩ := calculate_score_preserves enriched scored weights "Team" (by decide) hs
  have hfp := sortScored_perm scored final hf
  refine ⟨hmlen, hmk, ?_, ?_⟩
  · rw [hfp.length_eq, ls, le, hmlen]
  · have hp : (keyVals final "Team").Perm (keyVals scored "Team") := List.Perm.map _ hfp
    rw [ks, ke, hmk] at hp
    exact hp

/-- Counterexample to C6 as stated: a leaderboard listing team A twice
makes the left join produce two rows for the single standings record —
the merge stage does not yield exactly one row per TeamRecord, and the
row count is not preserved. -/
theorem c6_duplicate_key_duplicates_rows :
    mergePipeline exMLB1 exXfDup (scrape_fangraphs_leaderboard none "wRC+")
      (scrape_fangraphs_leaderboard none "Bullpen xFIP") = some exDupMerged ∧
    exMLB1.rows.length = 1 ∧
    exDupMerged.rows.length = 2 :=
  ⟨rfl, rfl, rfl⟩

/-- Witness for the amended C6: the one-team pipeline run end to end with
empty leaderboards, unit synthetic draws and the empty weight mapping. -/
theorem c6_row_preservation_witness :
    (strippedTeams (scrape_fangraphs_leaderboard none "xFIP")).Nodup ∧
    (strippedTeams (scrape_fangraphs_leaderboard none "wRC+")).Nodup ∧
    (strippedTeams (scrape_fangraphs_leaderboard none "Bullpen xFIP")).Nodup ∧
    mergePipeline exMLB1 (scrape_fangraphs_leaderboard none "xFIP")
      (scrape_fangraphs_leaderboard none "wRC+")
      (scrape_fangraphs_leaderboard none "Bullpen xFIP") = some exW6merged ∧
    enrich exW6merged [1] [1] [1] [1] [1] = some exW6enriched ∧
    calculate_score exW6enriched [] = some exW6scored ∧
    sortScored exW6scored = some exW6scored ∧
    (exW6merged.rows.length = exMLB1.rows.length ∧
     keyVals exW6merged "Team" = keyVals exMLB1 "Team" ∧
     exW6scored.rows.length = exMLB1.rows.length ∧
     (keyVals exW6scored "Team").Perm (keyVals exMLB1 "Team")) :=
  ⟨List.nodup_nil, List.nodup_nil, List.nodup_nil, rfl, rfl, rfl, rfl,
    c6_row_preservation exMLB1 (scrape_fangraphs_leaderboard none "xFIP")
      (scrape_fangraphs_leaderboard none "wRC+")
      (scrape_fangraphs_leaderboard none "Bullpen xFIP")
      exW6merged exW6enriched exW6scored exW6scored [1] [1] [1] [1] [1] []
      List.nodup_nil List.nodup_nil List.nodup_nil rfl rfl rfl rfl⟩

end MLB
